import Mathlib

/-!
Shallow embedding of the `recipe_zs2017_rnn_feats` repository sources and
proofs about them.

Embedded sources:
* `src/features/fbank/get_segments_scp.py` — segment extraction from a
  forced-alignment file and SCP generation (times modelled as `ℚ`,
  Python 2 `round` modelled exactly as round-half-away-from-zero).
* `src/embeddings/link_xitsonga_mfcc.py` — symlink creation over an abstract
  file-system state.
* `src/embeddings/train_siamese.py` — model-directory/path construction,
  label-to-integer conversion, and the graph built for the Siamese network
  (the tensor-framework builders of `tflego` are absent from the sources, so
  graph nodes are recorded symbolically, modelled from the spec).
* `src/src/test_tflego.py` — the hand-written NumPy reference functions
  (`np_rnn`, `np_encdec_lazydynamic`, the VQ reference), over `ℝ`.
-/

namespace RecipeFeats

/-! ## get_segments_scp.py: data model

A line of the forced-alignment file is `utterance start end label`; times are
floats in the source, modelled as rationals.
-/

/-- One token line of the forced-alignment (`.wrd`) file. -/
structure Token where
  utt : String
  start : ℚ
  stop : ℚ
  label : String
  deriving DecidableEq

/-- A segment `(utterance, start_time, end_time)` as accumulated by `main`. -/
abbrev Seg := String × ℚ × ℚ

/-- The source's `utterance.replace("_", "-")` (single-character replace). -/
def hyph (s : String) : String := s.map fun c => if c = '_' then '-' else c

/-- The source's `token_label in ["SIL", "SPN"]` test. -/
def isSilOrSpn (t : Token) : Bool := t.label == "SIL" || t.label == "SPN"

/-- The retained tokens: non-SIL/SPN lines, with the utterance name already
hyphenated, in file order. -/
def keptTokens (toks : List Token) : List Token :=
  (toks.filter fun t => !isSilOrSpn t).map fun t => { t with utt := hyph t.utt }

/-- Loop state of the segment-collection loop in `main` of
`get_segments_scp.py`: `prev_utterance`, `prev_end_time`, `start_time` and the
accumulated `segments`. (`prev_token_label` is set by the source but never
read, so it is omitted.) -/
structure SegState where
  prevUtt : String
  prevEnd : ℚ
  startT : ℚ
  segs : List Seg

/-- Initial loop state: `prev_utterance = ""`, `prev_end_time = -1`,
`start_time = -1`, `segments = []`. -/
def initSegState : SegState := { prevUtt := "", prevEnd := -1, startT := -1, segs := [] }

/-- One iteration of the segment-collection loop, for one file line. -/
def segStep (s : SegState) (t : Token) : SegState :=
  if isSilOrSpn t then s
  else
    let u := hyph t.utt
    if s.prevEnd ≠ t.start ∨ s.prevUtt ≠ u then
      { prevUtt := u, prevEnd := t.stop, startT := t.start,
        segs := if s.prevEnd ≠ -1 then s.segs ++ [(s.prevUtt, s.startT, s.prevEnd)] else s.segs }
    else
      { prevUtt := u, prevEnd := t.stop, startT := s.startT, segs := s.segs }

/-- `segStep` restricted to an already-retained (non-SIL/SPN, hyphenated)
token; used to relate the loop to `keptTokens`. -/
def segStepK (s : SegState) (t : Token) : SegState :=
  if s.prevEnd ≠ t.start ∨ s.prevUtt ≠ t.utt then
    { prevUtt := t.utt, prevEnd := t.stop, startT := t.start,
      segs := if s.prevEnd ≠ -1 then s.segs ++ [(s.prevUtt, s.startT, s.prevEnd)] else s.segs }
  else
    { prevUtt := t.utt, prevEnd := t.stop, startT := s.startT, segs := s.segs }

/-- The final `segments.append((prev_utterance, start_time, prev_end_time))`
after the loop. -/
def finishSegs (s : SegState) : List Seg := s.segs ++ [(s.prevUtt, s.startT, s.prevEnd)]

/-- The `segments` list built by `main` of `get_segments_scp.py` from the
forced-alignment lines. -/
def mainSegments (toks : List Token) : List Seg :=
  finishSegs (toks.foldl segStep initSegState)

/-- Specification-side segment of a run: utterance of the run, start time of
its first token, end time of its last token. -/
def segOf (p : Token × Token) : Seg := (p.2.utt, p.1.start, p.2.stop)

/-- Specification-side grouping of retained tokens into maximal runs: a run
continues while the next token has the same utterance and starts exactly at
the previous token's end time. Returns `(first, last)` token of each run. -/
def runsAux (first lastTok : Token) : List Token → List (Token × Token)
  | [] => [(first, lastTok)]
  | u :: us =>
    if u.utt = lastTok.utt ∧ u.start = lastTok.stop then runsAux first u us
    else (first, lastTok) :: runsAux u u us

/-- Specification-side segment list: one `(utterance, start of first token,
end of last token)` entry per maximal run of retained tokens. -/
def specSegs : List Token → List Seg
  | [] => []
  | t :: ts => (runsAux t t ts).map segOf

/-! ## get_segments_scp.py: SCP generation -/

/-- Python 2 `round` (half away from zero), composed with `int(...)`. -/
def pyRound (q : ℚ) : ℤ := if 0 ≤ q then ⌊q + 1 / 2⌋ else -⌊-q + 1 / 2⌋

/-- Left-pad a string with zeros to width `w`. -/
def zfill (w : Nat) (s : String) : String :=
  if s.length < w then String.mk (List.replicate (w - s.length) '0') ++ s else s

/-- The `"%06d"` format of an integer: zero-padded to at least six characters,
the sign included in the width. -/
def fmt06d (n : ℤ) : String :=
  if n < 0 then "-" ++ zfill 5 (toString (-n)) else zfill 6 (toString n)

/-- `os.path.join` of two relative components. -/
def pathJoin (a b : String) : String := a ++ "/" ++ b

/-- One line written to the SCP file:
`basename_SSSSSS-EEEEEE.fbank=<feat_dir>/<basename>.fbank[start,end]`. -/
def scpLine (featDir basename : String) (s e : ℤ) : String :=
  let segmentLabel := basename ++ "_" ++ fmt06d s ++ "-" ++ fmt06d e ++ ".fbank"
  segmentLabel ++ "=" ++ pathJoin featDir (basename ++ ".fbank")
    ++ "[" ++ toString s ++ "," ++ toString e ++ "]"

/-- The `(basename, start_frame, end_frame)` entries the SCP-writing loop
keeps: frames are `int(round(time * 100))`; if the end frame exceeds
`lengths[basename]` then either the segment is skipped (when the start frame
also exceeds it) or the end frame is replaced by `lengths[basename] - 1`. -/
def scpEntries (lengths : String → ℤ) : List Seg → List (String × ℤ × ℤ)
  | [] => []
  | (u, st, en) :: rest =>
    let s := pyRound (st * 100)
    let e := pyRound (en * 100)
    if lengths u < e then
      if lengths u < s then scpEntries lengths rest
      else (u, s, lengths u - 1) :: scpEntries lengths rest
    else (u, s, e) :: scpEntries lengths rest

/-- The lines written to the SCP file, mirroring the source loop. -/
def scpLines (lengths : String → ℤ) (featDir : String) : List Seg → List String
  | [] => []
  | (u, st, en) :: rest =>
    let s := pyRound (st * 100)
    let e := pyRound (en * 100)
    if lengths u < e then
      if lengths u < s then scpLines lengths featDir rest
      else scpLine featDir u s (lengths u - 1) :: scpLines lengths featDir rest
    else scpLine featDir u s e :: scpLines lengths featDir rest

/-- The lines written to the segments list file, one
`utterance start end` line per segment; `render` stands for Python's `str`
on a float. -/
def output_list_lines (render : ℚ → String) : List Seg → List String
  | [] => []
  | (u, st, en) :: rest =>
    (u ++ " " ++ render st ++ " " ++ render en) :: output_list_lines render rest

/-! ## train_siamese.py: model directory and output file paths -/

/-- A Python value stored in `options_dict` (only the shapes the script
stores). -/
inductive PyVal where
  | str (s : String)
  | int (n : ℤ)
  | rat (q : ℚ)
  | bool (b : Bool)
  | list (l : List PyVal)

/-- An options dictionary, as an association list. -/
abbrev OptionsDict := List (String × PyVal)

/-- Lookup of a string-valued option. -/
def getStr (o : OptionsDict) (k : String) : String :=
  match List.lookup k o with
  | some (PyVal.str s) => s
  | _ => ""

/-- Insert one item into a key-sorted item list. -/
def insertByKey (p : String × PyVal) : OptionsDict → OptionsDict
  | [] => [p]
  | q :: rest => if p.1 ≤ q.1 then p :: q :: rest else q :: insertByKey p rest

/-- Python's `sorted(options_dict.items())`, sorting items by key (the keys of
an options dictionary are distinct, so the key order decides). -/
def sortItems : OptionsDict → OptionsDict
  | [] => []
  | p :: rest => insertByKey p (sortItems rest)

/-- Python's `path.split(p)[-1]`: the last `/`-separated component. -/
def pathBase (s : String) : String := (s.splitOn "/").getLastD ""

/-- The first 10 hex digits of the MD5 hash of `repr(sorted(
options_dict.items()))`; `md5hex` stands for `repr` composed with the MD5
hex digest, which is library code absent from the sources. -/
def hash_str (md5hex : OptionsDict → String) (o : OptionsDict) : String :=
  (md5hex (sortItems o)).take 10

/-- The model directory built by `train_siamese`:
`models/<basename(data_dir)>.<train_tag>/<script>/<hash_str>`. -/
def model_dir (md5hex : OptionsDict → String) (o : OptionsDict) : String :=
  pathJoin (pathJoin (pathJoin "models"
    (pathBase (getStr o "data_dir") ++ "." ++ getStr o "train_tag"))
    (getStr o "script")) (hash_str md5hex o)

/-- Path of the pickled training record written after training. -/
def record_dict_fn (md5hex : OptionsDict → String) (o : OptionsDict) : String :=
  pathJoin (model_dir md5hex o) "record_dict.pkl"

/-- Path of the pickled options dictionary written after training. -/
def options_dict_fn (md5hex : OptionsDict → String) (o : OptionsDict) : String :=
  pathJoin (model_dir md5hex o) "options_dict.pkl"

/-! ## train_siamese.py: label-to-integer conversion -/

/-- Python's `sorted(set(train_labels))`. -/
def sortedLabelSet (labels : List String) : List String :=
  labels.toFinset.sort (· ≤ ·)

/-- The integer id assigned to a label: its index in the sorted label set. -/
def label_to_id (labels : List String) (l : String) : ℕ :=
  (sortedLabelSet labels).indexOf l

/-- The integer-converted training labels `train_y`. -/
def train_y (labels : List String) : List ℕ :=
  labels.map (label_to_id labels)

/-! ## train_siamese.py: the graph built for the Siamese network

Modelled from the spec: the tensor-framework builders called here
(`tflego.build_multi_rnn`, `tflego.build_bidirectional_multi_rnn`,
`tflego.build_feedforward`, `tf.nn.l2_normalize`,
`tf.contrib.losses.metric_learning.triplet_semihard_loss`,
`tf.train.AdamOptimizer(...).minimize`) are absent from the sources, so graph
nodes are recorded symbolically: each constructor stands for the named
framework operation applied to its argument subgraphs, per the spec's
description of "multi-layer (optionally bidirectional) recurrent encoders"
and the "triplet (semi-hard) loss ... minimized with the Adam optimizer".
-/
inductive TFGraph where
  | placeholder (nm : String)
  | multiRnnStates (rnnType : String) (nHiddens : List ℕ) (keepProb : ℚ)
      (x xLengths : TFGraph)
  | bidiMultiRnnStates (rnnType : String) (nHiddens : List ℕ) (keepProb : ℚ)
      (x xLengths : TFGraph)
  | lstmStateH (s : TFGraph)
  | feedforward (nHiddens : List ℕ) (keepProb : ℚ) (inp : TFGraph)
  | l2Normalize (axis : ℕ) (inp : TFGraph)
  | tripletSemihardLoss (labels embeddings : TFGraph) (margin : ℚ)
  | adamMinimize (learningRate : ℚ) (loss : TFGraph)
  deriving DecidableEq

/-- The option values consumed when building the Siamese graph. -/
structure SiameseOptions where
  rnn_n_hiddens : List ℕ
  ff_n_hiddens : List ℕ
  rnn_type : String
  rnn_keep_prob : ℚ
  ff_keep_prob : ℚ
  bidirectional : Bool
  margin : ℚ
  learning_rate : ℚ

/-- `build_siamese_rnn_side` of `train_siamese.py`: a bidirectional or
unidirectional multi-layer RNN depending on the flag, the `.h` component of
the final state when the cell is an LSTM, then the feedforward layers. -/
def build_siamese_rnn_side (x xLengths : TFGraph) (rnn_n_hiddens ff_n_hiddens : List ℕ)
    (rnn_type : String) (rnn_keep_prob ff_keep_prob : ℚ) (bidirectional : Bool) : TFGraph :=
  let rnn_states :=
    if bidirectional then
      TFGraph.bidiMultiRnnStates rnn_type rnn_n_hiddens rnn_keep_prob x xLengths
    else
      TFGraph.multiRnnStates rnn_type rnn_n_hiddens rnn_keep_prob x xLengths
  let rnn_states := if rnn_type = "lstm" then TFGraph.lstmStateH rnn_states else rnn_states
  TFGraph.feedforward ff_n_hiddens ff_keep_prob rnn_states

/-- `build_siamese_from_options_dict`: the side network with its output
L2-normalized along axis 1. -/
def build_siamese_from_options_dict (x xLengths : TFGraph) (o : SiameseOptions) : TFGraph :=
  TFGraph.l2Normalize 1 (build_siamese_rnn_side x xLengths o.rnn_n_hiddens
    o.ff_n_hiddens o.rnn_type o.rnn_keep_prob o.ff_keep_prob o.bidirectional)

/-- The `x` placeholder of `train_siamese`. -/
def siamese_x : TFGraph := TFGraph.placeholder "x"

/-- The `x_lengths` placeholder of `train_siamese`. -/
def siamese_x_lengths : TFGraph := TFGraph.placeholder "x_lengths"

/-- The `y` placeholder of `train_siamese`, fed with the integer-converted
labels `train_y`. -/
def siamese_y : TFGraph := TFGraph.placeholder "y"

/-- The training loss graph node built by `train_siamese`. -/
def train_siamese_loss (o : SiameseOptions) : TFGraph :=
  TFGraph.tripletSemihardLoss siamese_y
    (build_siamese_from_options_dict siamese_x siamese_x_lengths o) o.margin

/-- The training op built by `train_siamese`. -/
def train_siamese_optimizer (o : SiameseOptions) : TFGraph :=
  TFGraph.adamMinimize o.learning_rate (train_siamese_loss o)

/-! ## link_xitsonga_mfcc.py: symlink creation

The file system is modelled by which paths have a directory entry
(`present`) and which paths `os.path.isfile` accepts (symlinks resolved, so a
dangling symlink is `present` but not `isfile`).
-/

/-- Abstract file-system state. -/
structure FS where
  present : String → Bool
  isfile : String → Bool

/-- The output directory `data/xitsonga.mfcc`. -/
def output_dir : String := pathJoin "data" "xitsonga.mfcc"

/-- Path of the training-data symlink. -/
def train_link_fn : String := pathJoin output_dir "train.utd.npz"

/-- Path of the test-data symlink. -/
def test_link_fn : String := pathJoin output_dir "test.npz"

/-- One `if not path.isfile(link_fn): os.symlink(npz_fn, link_fn)` block.
`targetIsFile` says whether the linked-to feature file exists; `os.symlink`
raises (`none`) when any entry already exists at `link`. The second component
accumulates the links created. -/
def linkStep (targetIsFile : Bool) (link : String) (st : FS × List String) :
    Option (FS × List String) :=
  if st.1.isfile link then some st
  else if st.1.present link then none
  else
    some ({ present := fun p => p == link || st.1.present p,
            isfile := fun p => if p == link then targetIsFile else st.1.isfile p },
          st.2 ++ [link])

/-- `main` of `link_xitsonga_mfcc.py`: the train link then the test link.
(The `os.makedirs(output_dir)` call creates a directory, which affects
neither link path.) -/
def linkMain (t1 t2 : Bool) (fs : FS) : Option (FS × List String) :=
  (linkStep t1 train_link_fn (fs, [])).bind (linkStep t2 test_link_fn)

/-! ## test_tflego.py: NumPy reference functions, over `ℝ`

`np_rnn` of the test file: for each item `i`, the hidden state is seeded at
zero and stepped with `tanh(hstack(x_t, state) . W + b)` for the first
`x_lengths[i]` steps, written into a zero-initialised
`(n_data, maxlength, n_hidden)` array. Weights, biases and inputs are
modelled as total functions; `W` has `n_input + n_hidden` rows.
-/

/-- The hidden state of the basic RNN after `t` steps on one sequence `xs`. -/
noncomputable def np_rnn_state (nInput nHidden : ℕ) (xs : ℕ → ℕ → ℝ)
    (W : ℕ → ℕ → ℝ) (b : ℕ → ℝ) : ℕ → ℕ → ℝ
  | 0, _ => 0
  | t + 1, k => Real.tanh
      ((∑ j in Finset.range nInput, xs t j * W j k)
        + (∑ j in Finset.range nHidden, np_rnn_state nInput nHidden xs W b t j * W (nInput + j) k)
        + b k)

/-- `np_rnn` of the test file: entry `(i, t, k)` of the output array. Steps at
or beyond `x_lengths[i]` (or beyond `maxlength`) keep the zero
initialisation. -/
noncomputable def np_rnn (nInput nHidden : ℕ) (x : ℕ → ℕ → ℕ → ℝ) (xLengths : ℕ → ℕ)
    (W : ℕ → ℕ → ℝ) (b : ℕ → ℝ) (maxlength : ℕ) (i t k : ℕ) : ℝ :=
  if t < xLengths i ∧ t < maxlength then np_rnn_state nInput nHidden (x i) W b (t + 1) k
  else 0

/-- The two outputs of `np_encdec_lazydynamic` the claims are about. -/
structure EncDecOutput where
  encoder_states : ℕ → ℕ → ℝ
  decoder_output : ℕ → ℕ → ℕ → ℝ

/-- `np_encdec_lazydynamic` of the test file: the encoder RNN, the per-item
encoder state read at step `x_lengths[i] - 1`, the decoder RNN fed that state
repeated at every step, and the final linear layer written into a
zero-initialised array of the input's shape for the first `x_lengths[i]`
steps. -/
noncomputable def np_encdec_lazydynamic (nInput nHidden : ℕ)
    (x : ℕ → ℕ → ℕ → ℝ) (xLengths : ℕ → ℕ)
    (W_encoder : ℕ → ℕ → ℝ) (b_encoder : ℕ → ℝ)
    (W_decoder : ℕ → ℕ → ℝ) (b_decoder : ℕ → ℝ)
    (W_output : ℕ → ℕ → ℝ) (b_output : ℕ → ℝ)
    (maxlength : ℕ) : EncDecOutput :=
  let encoder_output := np_rnn nInput nHidden x xLengths W_encoder b_encoder maxlength
  let encoder_states := fun i k => encoder_output i (xLengths i - 1) k
  let decoder_input := fun i (_ : ℕ) k => encoder_states i k
  let decoder_rnn := np_rnn nHidden nHidden decoder_input xLengths W_decoder b_decoder maxlength
  { encoder_states := encoder_states
    decoder_output := fun i t k =>
      if t < xLengths i ∧ t < maxlength then
        (∑ j in Finset.range nHidden, decoder_rnn i t j * W_output j k) + b_output k
      else 0 }

/-! ## test_tflego.py: the NumPy VQ reference -/

/-- Index of the first minimum of a list (`np.argmin` semantics). -/
def listArgmin {α : Type} [LinearOrder α] : List α → ℕ
  | [] => 0
  | a :: l => if ∀ x ∈ l, a ≤ x then 0 else listArgmin l + 1

/-- Euclidean distance from `x_test` to codebook entry `k`
(`np.linalg.norm(x_test - embed)`). -/
noncomputable def vqDist (D : ℕ) (embeds : ℕ → ℕ → ℝ) (x : ℕ → ℝ) (k : ℕ) : ℝ :=
  Real.sqrt (∑ j in Finset.range D, (x j - embeds k j) ^ 2)

/-- The `dists` list built by the NumPy VQ reference in `test_vq`. -/
noncomputable def vqDists (K D : ℕ) (embeds : ℕ → ℕ → ℝ) (x : ℕ → ℝ) : List ℝ :=
  (List.range K).map (vqDist D embeds x)

/-- The NumPy VQ reference output `tf_embeds[np.argmin(dists)]` for one input
vector. -/
noncomputable def np_z_q (K D : ℕ) (embeds : ℕ → ℕ → ℝ) (x : ℕ → ℝ) : ℕ → ℝ :=
  embeds (listArgmin (vqDists K D embeds x))

/-! ## Concrete instances used to instantiate theorems with hypotheses -/

/-- The all-zero vector over `ℝ`. -/
noncomputable def realZeroVec : ℕ → ℝ := fun _ => 0

/-- The all-zero matrix over `ℝ`. -/
noncomputable def realZeroMat : ℕ → ℕ → ℝ := fun _ _ => 0

/-- The all-zero rank-3 array over `ℝ`. -/
noncomputable def realZeroCube : ℕ → ℕ → ℕ → ℝ := fun _ _ _ => 0

/-- A lengths vector that is `1` everywhere. -/
def oneLen : ℕ → ℕ := fun _ => 1

/-- Concrete Siamese options. -/
def siameseOptsC : SiameseOptions :=
  { rnn_n_hiddens := [400, 400, 400], ff_n_hiddens := [130], rnn_type := "gru",
    rnn_keep_prob := 1, ff_keep_prob := 1, bidirectional := false,
    margin := 1 / 5, learning_rate := 1 / 1000 }

/-- Concrete training labels. -/
def labelsC : List String := ["yes", "no", "yes"]

/-- Concrete forced-alignment tokens: two contiguous words in one utterance,
a silence, then a word in another utterance. -/
def toksC : List Token :=
  [{ utt := "s01_a", start := 0, stop := 1, label := "hi" },
   { utt := "s01_a", start := 1, stop := 2, label := "there" },
   { utt := "s01_a", start := 2, stop := 3, label := "SIL" },
   { utt := "s02_b", start := 5, stop := 6, label := "yo" }]

/-- A concrete frame-count table: every feature file has 5 frames. -/
def lengthsC : String → ℤ := fun _ => 5

/-- A concrete segment list with one segment ending past the frame count. -/
def segsTruncC : List Seg := [("u", 0, 1)]

/-- The empty file system. -/
def fs0 : FS := { present := fun _ => false, isfile := fun _ => false }

/-- The file system after a successful first run of `link_xitsonga_mfcc.main`
on `fs0` with both link targets existing. -/
def fs1c : FS :=
  { present := fun p => p == test_link_fn || (p == train_link_fn || fs0.present p),
    isfile := fun p =>
      if p == test_link_fn then true
      else if p == train_link_fn then true
      else fs0.isfile p }

/-! ## Theorems -/

/-- Claim C9: after training completes, `train_siamese` writes the training
record and the options dictionary as pickle files named `record_dict.pkl` and
`options_dict.pkl` inside the model directory, whose path ends in the first
10 hex digits of the MD5 hash of the sorted options dictionary items
(`md5hex` abstracts `repr` composed with the MD5 hex digest, library code
absent from the sources). -/
theorem train_siamese_output_files (md5hex : OptionsDict → String) (o : OptionsDict) :
    record_dict_fn md5hex o = model_dir md5hex o ++ "/" ++ "record_dict.pkl"
  ∧ options_dict_fn md5hex o = model_dir md5hex o ++ "/" ++ "options_dict.pkl"
  ∧ model_dir md5hex o
      = pathJoin (pathJoin (pathJoin "models"
          (pathBase (getStr o "data_dir") ++ "." ++ getStr o "train_tag"))
          (getStr o "script")) ((md5hex (sortItems o)).take 10)
  ∧ ∃ p : String, model_dir md5hex o = p ++ (md5hex (sortItems o)).take 10 :=
  ⟨rfl, rfl, rfl,
    ⟨pathJoin (pathJoin "models"
        (pathBase (getStr o "data_dir") ++ "." ++ getStr o "train_tag"))
        (getStr o "script") ++ "/", rfl⟩⟩

/-- Claim C3: in `train_siamese`, the training objective is the framework's
semi-hard triplet loss with margin `options_dict["margin"]`, computed on the
`y` placeholder (fed the integer-converted labels, whose conversion is
injective on the occurring labels) and on network outputs first L2-normalized
along axis 1, minimized with the Adam optimizer at learning rate
`options_dict["learning_rate"]`. -/
theorem train_siamese_objective (o : SiameseOptions) (labels : List String) :
    train_siamese_loss o
      = TFGraph.tripletSemihardLoss siamese_y
          (TFGraph.l2Normalize 1 (build_siamese_rnn_side siamese_x siamese_x_lengths
            o.rnn_n_hiddens o.ff_n_hiddens o.rnn_type o.rnn_keep_prob o.ff_keep_prob
            o.bidirectional)) o.margin
  ∧ train_siamese_optimizer o = TFGraph.adamMinimize o.learning_rate (train_siamese_loss o)
  ∧ ∀ a ∈ labels, ∀ b ∈ labels, (label_to_id labels a = label_to_id labels b ↔ a = b) := by
  refine ⟨rfl, rfl, ?_⟩
  intro a ha b hb
  have ha' : a ∈ sortedLabelSet labels := by
    rw [sortedLabelSet, Finset.mem_sort, List.mem_toFinset]
    exact ha
  have hb' : b ∈ sortedLabelSet labels := by
    rw [sortedLabelSet, Finset.mem_sort, List.mem_toFinset]
    exact hb
  simpa [label_to_id] using List.indexOf_inj ha' hb'

/-- Witness for claim C3 at concrete options and labels. -/
theorem train_siamese_objective_witness :
    ("yes" ∈ labelsC)
  ∧ (label_to_id labelsC "yes" = label_to_id labelsC "no" ↔ "yes" = "no")
  ∧ train_siamese_optimizer siameseOptsC
      = TFGraph.adamMinimize siameseOptsC.learning_rate (train_siamese_loss siameseOptsC) :=
  ⟨by decide,
    (train_siamese_objective siameseOptsC labelsC).2.2 "yes" (by decide) "no" (by decide),
    (train_siamese_objective siameseOptsC labelsC).2.1⟩

/-- Claim C4: `build_siamese_rnn_side` builds a bidirectional multi-layer RNN
encoder iff the `bidirectional` flag is true and a unidirectional one
otherwise; in both cases the final RNN state (its `.h` component when
`rnn_type` is `"lstm"`) is passed through the feedforward layers
`ff_n_hiddens`. -/
theorem build_siamese_rnn_side_cases (x xl : TFGraph) (rh fh : List ℕ) (rt : String)
    (rkp fkp : ℚ) (b : Bool) :
    (b = true → build_siamese_rnn_side x xl rh fh rt rkp fkp b
        = TFGraph.feedforward fh fkp
            (if rt = "lstm" then TFGraph.lstmStateH (TFGraph.bidiMultiRnnStates rt rh rkp x xl)
             else TFGraph.bidiMultiRnnStates rt rh rkp x xl))
  ∧ (b = false → build_siamese_rnn_side x xl rh fh rt rkp fkp b
        = TFGraph.feedforward fh fkp
            (if rt = "lstm" then TFGraph.lstmStateH (TFGraph.multiRnnStates rt rh rkp x xl)
             else TFGraph.multiRnnStates rt rh rkp x xl)) := by
  constructor <;> rintro rfl <;> rfl

/-- Witness for claim C4 at a concrete bidirectional LSTM configuration. -/
theorem build_siamese_rnn_side_cases_witness :
    build_siamese_rnn_side siamese_x siamese_x_lengths [4] [3] "lstm" 1 1 true
      = TFGraph.feedforward [3] 1
          (TFGraph.lstmStateH
            (TFGraph.bidiMultiRnnStates "lstm" [4] 1 siamese_x siamese_x_lengths)) := by
  have h := (build_siamese_rnn_side_cases siamese_x siamese_x_lengths
    [4] [3] "lstm" 1 1 true).1 rfl
  simpa using h

/-- Claim C2: for `1 ≤ x_lengths[i] ≤ maxlength`, `np_encdec_lazydynamic`
returns encoder states whose `i`-th row equals the encoder RNN output for
item `i` at time step `x_lengths[i] - 1` (that is, the RNN state after
`x_lengths[i]` steps), and a decoder output that is zero at every time step
`t ≥ x_lengths[i]`. -/
theorem np_encdec_lazydynamic_props (nInput nHidden : ℕ) (x : ℕ → ℕ → ℕ → ℝ)
    (xLengths : ℕ → ℕ) (W_e : ℕ → ℕ → ℝ) (b_e : ℕ → ℝ) (W_d : ℕ → ℕ → ℝ) (b_d : ℕ → ℝ)
    (W_o : ℕ → ℕ → ℝ) (b_o : ℕ → ℝ) (maxlength i : ℕ)
    (h1 : 1 ≤ xLengths i) (h2 : xLengths i ≤ maxlength) :
    (∀ k, (np_encdec_lazydynamic nInput nHidden x xLengths W_e b_e W_d b_d W_o b_o
        maxlength).encoder_states i k
      = np_rnn nInput nHidden x xLengths W_e b_e maxlength i (xLengths i - 1) k)
  ∧ (∀ k, (np_encdec_lazydynamic nInput nHidden x xLengths W_e b_e W_d b_d W_o b_o
        maxlength).encoder_states i k
      = np_rnn_state nInput nHidden (x i) W_e b_e (xLengths i) k)
  ∧ (∀ t k, xLengths i ≤ t →
      (np_encdec_lazydynamic nInput nHidden x xLengths W_e b_e W_d b_d W_o b_o
        maxlength).decoder_output i t k = 0) := by
  refine ⟨fun k => rfl, fun k => ?_, fun t k ht => ?_⟩
  · have e : xLengths i - 1 + 1 = xLengths i := by omega
    simp only [np_encdec_lazydynamic, np_rnn]
    rw [if_pos ⟨by omega, by omega⟩, e]
  · simp only [np_encdec_lazydynamic]
    rw [if_neg (by omega : ¬(t < xLengths i ∧ t < maxlength))]

/-- Witness for claim C2 at concrete zero parameters and unit lengths. -/
theorem np_encdec_lazydynamic_props_witness :
    1 ≤ oneLen 0
  ∧ (np_encdec_lazydynamic 1 1 realZeroCube oneLen realZeroMat realZeroVec realZeroMat
      realZeroVec realZeroMat realZeroVec 1).decoder_output 0 3 0 = 0 :=
  ⟨by decide,
    (np_encdec_lazydynamic_props 1 1 realZeroCube oneLen realZeroMat realZeroVec
      realZeroMat realZeroVec realZeroMat realZeroVec 1 0 (by decide) (by decide)).2.2
      3 0 (by decide)⟩

/-- The first-minimum index is in range for a nonempty list. -/
theorem listArgmin_lt_length {α : Type} [LinearOrder α] :
    ∀ (l : List α), l ≠ [] → listArgmin l < l.length := by
  intro l
  induction l with
  | nil => intro h; exact absurd rfl h
  | cons a t ih =>
    intro _
    by_cases h : ∀ x ∈ t, a ≤ x
    · simp [listArgmin, if_pos h]
    · have hne : t ≠ [] := by
        rintro rfl
        exact h (by simp)
      have := ih hne
      simp only [listArgmin, if_neg h, List.length_cons]
      omega

/-- The element at the first-minimum index is a lower bound of the list. -/
theorem listArgmin_le {α : Type} [LinearOrder α] (d : α) :
    ∀ (l : List α) (i : ℕ), i < l.length → l.getD (listArgmin l) d ≤ l.getD i d := by
  intro l
  induction l with
  | nil => intro i hi; simp at hi
  | cons a t ih =>
    intro i hi
    by_cases h : ∀ x ∈ t, a ≤ x
    · simp only [listArgmin, if_pos h, List.getD_cons_zero]
      match i with
      | 0 => simp
      | i + 1 =>
        have hi' : i < t.length := by simpa using hi
        simp only [List.getD_cons_succ]
        rw [List.getD_eq_getElem t d hi']
        exact h _ (List.getElem_mem hi')
    · simp only [listArgmin, if_neg h, List.getD_cons_succ]
      push_neg at h
      obtain ⟨w, hw, hwa⟩ := h
      match i with
      | 0 =>
        simp only [List.getD_cons_zero]
        obtain ⟨n, hn, hg⟩ := List.mem_iff_getElem.mp hw
        calc t.getD (listArgmin t) d ≤ t.getD n d := ih n hn
        _ = w := by rw [List.getD_eq_getElem t d hn, hg]
        _ ≤ a := le_of_lt hwa
      | i + 1 =>
        have hi' : i < t.length := by simpa using hi
        exact ih i hi'

/-- Every index strictly before the first-minimum index holds a strictly
larger value (so `listArgmin` is the first minimum, as for `np.argmin`). -/
theorem listArgmin_first {α : Type} [LinearOrder α] (d : α) :
    ∀ (l : List α) (i : ℕ), i < l.length → i < listArgmin l →
      l.getD (listArgmin l) d < l.getD i d := by
  intro l
  induction l with
  | nil => intro i hi; simp at hi
  | cons a t ih =>
    intro i hi hlt
    by_cases h : ∀ x ∈ t, a ≤ x
    · rw [listArgmin, if_pos h] at hlt
      omega
    · rw [listArgmin, if_neg h] at hlt
      simp only [listArgmin, if_neg h, List.getD_cons_succ]
      push_neg at h
      obtain ⟨w, hw, hwa⟩ := h
      match i with
      | 0 =>
        simp only [List.getD_cons_zero]
        obtain ⟨n, hn, hg⟩ := List.mem_iff_getElem.mp hw
        calc t.getD (listArgmin t) d ≤ t.getD n d := listArgmin_le d t n hn
        _ = w := by rw [List.getD_eq_getElem t d hn, hg]
        _ < a := hwa
      | i + 1 =>
        have hi' : i < t.length := by simpa using hi
        exact ih i hi' (by omega)

/-- The `dists` list of the VQ reference has one entry per codebook index. -/
theorem vqDists_length (K D : ℕ) (e : ℕ → ℕ → ℝ) (x : ℕ → ℝ) :
    (vqDists K D e x).length = K := by
  simp [vqDists]

/-- Entry `i` of the `dists` list is the distance to codebook entry `i`. -/
theorem vqDists_getD (K D : ℕ) (e : ℕ → ℕ → ℝ) (x : ℕ → ℝ) (i : ℕ) (hi : i < K) :
    (vqDists K D e x).getD i 0 = vqDist D e x i := by
  rw [vqDists, List.getD_eq_getElem _ _ (by simpa using hi)]
  simp

/-- Claim C5: the NumPy VQ reference maps every input vector to the codebook
entry with the smallest Euclidean distance, selecting the smallest-index
entry when several are equidistant (`np.argmin` over the distance list). -/
theorem np_vq_nearest (K D : ℕ) (embeds : ℕ → ℕ → ℝ) (x : ℕ → ℝ) (hK : 0 < K) :
    listArgmin (vqDists K D embeds x) < K
  ∧ (∀ m, np_z_q K D embeds x m = embeds (listArgmin (vqDists K D embeds x)) m)
  ∧ (∀ k, k < K →
      vqDist D embeds x (listArgmin (vqDists K D embeds x)) ≤ vqDist D embeds x k)
  ∧ (∀ k, k < listArgmin (vqDists K D embeds x) →
      vqDist D embeds x (listArgmin (vqDists K D embeds x)) < vqDist D embeds x k) := by
  have hlen : (vqDists K D embeds x).length = K := vqDists_length K D embeds x
  have hne : vqDists K D embeds x ≠ [] := by
    intro e
    rw [e] at hlen
    simp at hlen
    omega
  have hj : listArgmin (vqDists K D embeds x) < K := by
    have := listArgmin_lt_length (vqDists K D embeds x) hne
    omega
  refine ⟨hj, fun m => rfl, ?_, ?_⟩
  · intro k hk
    have h := listArgmin_le (0 : ℝ) (vqDists K D embeds x) k (by omega)
    rwa [vqDists_getD K D embeds x _ hj, vqDists_getD K D embeds x k hk] at h
  · intro k hk
    have hkK : k < K := lt_trans hk hj
    have h := listArgmin_first (0 : ℝ) (vqDists K D embeds x) k (by omega) hk
    rwa [vqDists_getD K D embeds x _ hj, vqDists_getD K D embeds x k hkK] at h

/-- Witness for claim C5 at a concrete two-entry codebook. -/
theorem np_vq_nearest_witness :
    listArgmin (vqDists 2 1 realZeroMat realZeroVec) < 2
  ∧ vqDist 1 realZeroMat realZeroVec (listArgmin (vqDists 2 1 realZeroMat realZeroVec))
      ≤ vqDist 1 realZeroMat realZeroVec 1 :=
  ⟨(np_vq_nearest 2 1 realZeroMat realZeroVec (by decide)).1,
    (np_vq_nearest 2 1 realZeroMat realZeroVec (by decide)).2.2.1 1 (by decide)⟩

/-- The segment-collection loop skips SIL/SPN lines and otherwise acts on the
hyphenated token, so folding over the file equals folding `segStepK` over the
retained tokens. -/
theorem fold_kept (toks : List Token) : ∀ s : SegState,
    toks.foldl segStep s = (keptTokens toks).foldl segStepK s := by
  induction toks with
  | nil => intro s; simp [keptTokens]
  | cons t ts ih =>
    intro s
    by_cases h : isSilOrSpn t = true
    · have h1 : segStep s t = s := by simp [segStep, h]
      have h2 : keptTokens (t :: ts) = keptTokens ts := by
        simp [keptTokens, List.filter_cons, h]
      rw [List.foldl_cons, h1, h2, ih]
    · have hb : isSilOrSpn t = false := by simpa using h
      have h2 : keptTokens (t :: ts)
          = { t with utt := hyph t.utt } :: keptTokens ts := by
        simp [keptTokens, List.filter_cons, hb]
      have h1 : segStep s t = segStepK s { t with utt := hyph t.utt } := by
        simp [segStep, segStepK, hb]
      rw [List.foldl_cons, h2, List.foldl_cons, ← h1, ih]

/-- Invariant of the segment loop: started in the middle of a run whose first
token is `first` and whose last token so far is `lastTok`, with `acc` the
completed segments, finishing the loop appends exactly one segment per
remaining maximal run. -/
theorem runs_invariant (ts : List Token) :
    ∀ (first lastTok : Token) (acc : List Seg), lastTok.stop ≠ -1 →
    (∀ t ∈ ts, t.stop ≠ -1) →
    finishSegs (ts.foldl segStepK
      { prevUtt := lastTok.utt, prevEnd := lastTok.stop, startT := first.start, segs := acc })
      = acc ++ (runsAux first lastTok ts).map segOf := by
  induction ts with
  | nil =>
    intro first lastTok acc _ _
    simp [finishSegs, runsAux, segOf]
  | cons u us ih =>
    intro first lastTok acc hlast hts
    by_cases hc : u.utt = lastTok.utt ∧ u.start = lastTok.stop
    · have hcond : ¬(lastTok.stop ≠ u.start ∨ lastTok.utt ≠ u.utt) := by
        push_neg
        exact ⟨hc.2.symm, hc.1.symm⟩
      have hstep : segStepK { prevUtt := lastTok.utt, prevEnd := lastTok.stop, startT := first.start, segs := acc } u = { prevUtt := u.utt, prevEnd := u.stop, startT := first.start, segs := acc } := by
        rw [segStepK, if_neg hcond]
      rw [List.foldl_cons, hstep,
        ih first u acc (hts u (by simp)) (fun t ht => hts t (by simp [ht]))]
      rw [runsAux, if_pos hc]
    · have hcond : (lastTok.stop ≠ u.start ∨ lastTok.utt ≠ u.utt) := by
        rcases not_and_or.mp hc with h | h
        · exact Or.inr fun e => h e.symm
        · exact Or.inl fun e => h e.symm
      have hstep : segStepK { prevUtt := lastTok.utt, prevEnd := lastTok.stop, startT := first.start, segs := acc } u = { prevUtt := u.utt, prevEnd := u.stop, startT := u.start, segs := acc ++ [(lastTok.utt, first.start, lastTok.stop)] } := by
        rw [segStepK, if_pos hcond]
        simp [hlast]
      rw [List.foldl_cons, hstep,
        ih u u (acc ++ [(lastTok.utt, first.start, lastTok.stop)]) (hts u (by simp))
          (fun t ht => hts t (by simp [ht]))]
      rw [runsAux, if_neg hc]
      simp [segOf]

/-- Claim C6: for a forced-alignment file with at least one retained
(non-SIL/SPN) token, the segment list built by `main` of
`get_segments_scp.py` has exactly one entry per maximal run of consecutive
retained tokens sharing the same (hyphenated) utterance in which each token
starts at the previous retained token's end time; that entry is the run's
utterance with the first token's start time and the last token's end time.
(Forced-alignment times are assumed sane: `0 ≤ start < end` per retained
token, so that they never collide with the `-1` sentinel.) -/
theorem get_segments_main_runs (toks : List Token)
    (hne : keptTokens toks ≠ [])
    (htime : ∀ t ∈ keptTokens toks, 0 ≤ t.start ∧ t.start < t.stop) :
    mainSegments toks = specSegs (keptTokens toks) := by
  have hstop : ∀ t : Token, 0 ≤ t.start → t.start < t.stop → t.stop ≠ (-1 : ℚ) := by
    intro t h0 hlt e
    rw [e] at hlt
    linarith
  rw [mainSegments, fold_kept]
  rcases hk : keptTokens toks with _ | ⟨r, rs⟩
  · exact absurd hk hne
  · rw [hk] at htime
    have hr := htime r (by simp)
    have hcond : (((-1 : ℚ) ≠ r.start) ∨ (("" : String) ≠ r.utt)) := by
      left
      intro e
      have h0 := hr.1
      rw [← e] at h0
      norm_num at h0
    have hstep : segStepK initSegState r
        = { prevUtt := r.utt, prevEnd := r.stop, startT := r.start, segs := [] } := by
      rw [segStepK]
      simp only [initSegState]
      rw [if_pos hcond]
      simp
    rw [List.foldl_cons, hstep,
      runs_invariant rs r r [] (hstop r hr.1 hr.2)
        (fun t ht => hstop t (htime t (by simp [ht])).1 (htime t (by simp [ht])).2)]
    simp [specSegs]

/-- Witness for claim C6 on the concrete token list. -/
theorem get_segments_main_runs_witness :
    keptTokens toksC ≠ []
  ∧ mainSegments toksC = specSegs (keptTokens toksC) :=
  ⟨by decide, get_segments_main_runs toksC (by decide) (by decide)⟩

/-- Python 2 `round` is monotone on nonnegative arguments. -/
theorem pyRound_mono {p q : ℚ} (hp : 0 ≤ p) (hpq : p ≤ q) : pyRound p ≤ pyRound q := by
  rw [pyRound, pyRound, if_pos hp, if_pos (le_trans hp hpq)]
  exact Int.floor_mono (by linarith)

/-- The SCP-entry loop as a `filterMap`: a segment is skipped exactly when
its rounded start frame exceeds the frame count, and its rounded end frame is
clamped to `lengths[basename] - 1` when it alone exceeds the frame count. -/
theorem scpEntries_eq_filterMap (lengths : String → ℤ) :
    ∀ segs : List Seg, (∀ s ∈ segs, 0 ≤ s.2.1 ∧ s.2.1 ≤ s.2.2) →
    scpEntries lengths segs
      = segs.filterMap (fun s =>
          if lengths s.1 < pyRound (s.2.1 * 100) then none
          else some (s.1, pyRound (s.2.1 * 100),
            if lengths s.1 < pyRound (s.2.2 * 100) then lengths s.1 - 1
            else pyRound (s.2.2 * 100))) := by
  intro segs
  induction segs with
  | nil => intro _; simp [scpEntries]
  | cons s rest ih =>
    intro h
    obtain ⟨u, st, en⟩ := s
    have hs := h _ (List.mem_cons_self _ _)
    have hab : pyRound (st * 100) ≤ pyRound (en * 100) := by
      apply pyRound_mono
      · have := hs.1
        simp only at this
        positivity
      · have := hs.2
        simp only at this
        linarith
    have ih' := ih fun s' hs' => h s' (List.mem_cons_of_mem _ hs')
    simp only [scpEntries, List.filterMap_cons]
    by_cases h1 : lengths u < pyRound (en * 100)
    · by_cases h2 : lengths u < pyRound (st * 100)
      · rw [if_pos h1, if_pos h2, if_pos h2, ih']
      · rw [if_pos h1, if_neg h2, if_neg h2, if_pos h1, ih']
    · have h2 : ¬lengths u < pyRound (st * 100) := by omega
      rw [if_neg h1, if_neg h2, if_neg h1, ih']

/-- Claim C8: every entry written to the SCP file has its end frame at most
`lengths[basename]`; a segment with rounded start frame past the frame count
is skipped, and one whose rounded end frame alone is past the frame count is
written with end frame `lengths[basename] - 1` (times are nonnegative and
ordered within a segment). -/
theorem scp_entries_truncation (lengths : String → ℤ) (segs : List Seg)
    (h : ∀ s ∈ segs, 0 ≤ s.2.1 ∧ s.2.1 ≤ s.2.2) :
    scpEntries lengths segs
      = segs.filterMap (fun s =>
          if lengths s.1 < pyRound (s.2.1 * 100) then none
          else some (s.1, pyRound (s.2.1 * 100),
            if lengths s.1 < pyRound (s.2.2 * 100) then lengths s.1 - 1
            else pyRound (s.2.2 * 100)))
  ∧ ∀ e ∈ scpEntries lengths segs, e.2.2 ≤ lengths e.1 := by
  refine ⟨scpEntries_eq_filterMap lengths segs h, ?_⟩
  intro e he
  rw [scpEntries_eq_filterMap lengths segs h] at he
  obtain ⟨s, _, hsome⟩ := List.mem_filterMap.mp he
  by_cases h2 : lengths s.1 < pyRound (s.2.1 * 100)
  · rw [if_pos h2] at hsome
    exact absurd hsome (by simp)
  · rw [if_neg h2] at hsome
    cases Option.some.inj hsome
    by_cases h1 : lengths s.1 < pyRound (s.2.2 * 100)
    · simp only [if_pos h1]
      omega
    · simp only [if_neg h1]
      omega

/-- Evaluation: the rounded end frame of time 1 is 100. -/
theorem pyRound_one_mul : pyRound ((1 : ℚ) * 100) = 100 := by
  rw [pyRound, if_pos (by norm_num)]
  norm_num [Int.floor_eq_iff]

/-- Evaluation: the rounded frame of the rational 0 is 0. -/
theorem pyRound_rat_zero : pyRound (0 : ℚ) = 0 := by
  rw [pyRound, if_pos (by norm_num)]
  norm_num [Int.floor_eq_iff]

/-- Evaluation: the rounded frame of the rational 100 is 100. -/
theorem pyRound_rat_hundred : pyRound (100 : ℚ) = 100 := by
  rw [pyRound, if_pos (by norm_num)]
  norm_num [Int.floor_eq_iff]

/-- Evaluation of the SCP entries on the concrete truncating segment. -/
theorem scpEntries_truncC_eval : scpEntries lengthsC segsTruncC = [("u", 0, 4)] := by
  simp [scpEntries, segsTruncC, lengthsC, pyRound_rat_zero, pyRound_rat_hundred]

/-- Witness for claim C8 on a concrete truncating segment. -/
theorem scp_entries_truncation_witness :
    ((0 : ℚ) ≤ 0 ∧ (0 : ℚ) ≤ 1) ∧ (4 : ℤ) ≤ lengthsC "u" :=
  ⟨by decide,
    (scp_entries_truncation lengthsC segsTruncC (by decide)).2 ("u", 0, 4)
      (by rw [scpEntries_truncC_eval]; exact List.mem_singleton.mpr rfl)⟩

/-- Counterexample to claim C7 as stated: with 5 frames available and a
segment from time 0 to time 1, the written entry's end frame is 4
(`lengths - 1`), not `round(1 * 100) = 100`. -/
theorem scp_end_frame_not_rounded :
    scpEntries lengthsC segsTruncC = [("u", 0, 4)]
  ∧ pyRound ((1 : ℚ) * 100) = 100 ∧ ((4 : ℤ) ≠ 100) :=
  ⟨scpEntries_truncC_eval, pyRound_one_mul, by decide⟩

/-- The lines written to the segments list file are exactly one
`utterance start end` line per segment. -/
theorem output_list_lines_eq_map (render : ℚ → String) :
    ∀ segs : List Seg, output_list_lines render segs
      = segs.map (fun s => s.1 ++ " " ++ render s.2.1 ++ " " ++ render s.2.2) := by
  intro segs
  induction segs with
  | nil => rfl
  | cons s rest ih =>
    obtain ⟨u, st, en⟩ := s
    simp [output_list_lines, ih]

/-- The SCP loop writes exactly one formatted line per kept entry. -/
theorem scpLines_eq_map (lengths : String → ℤ) (featDir : String) :
    ∀ segs : List Seg, scpLines lengths featDir segs
      = (scpEntries lengths segs).map (fun e => scpLine featDir e.1 e.2.1 e.2.2) := by
  intro segs
  induction segs with
  | nil => rfl
  | cons s rest ih =>
    obtain ⟨u, st, en⟩ := s
    simp only [scpLines, scpEntries]
    by_cases h1 : lengths u < pyRound (en * 100)
    · by_cases h2 : lengths u < pyRound (st * 100)
      · rw [if_pos h1, if_pos h2, if_pos h1, if_pos h2, ih]
      · rw [if_pos h1, if_neg h2, if_pos h1, if_neg h2, ih]
        simp
    · rw [if_neg h1, if_neg h1, ih]
      simp

/-- Claim C7 (amended): the segments list file has exactly one
`utterance start end` line per segment; the SCP file has one line per kept
entry of the form
`basename_SSSSSS-EEEEEE.fbank=<feat_dir>/<basename>.fbank[start,end]`, where
the start frame is the start time times 100 rounded, and the end frame is the
end time times 100 rounded unless that exceeds `lengths[basename]`, in which
case it is `lengths[basename] - 1` (segments whose rounded start frame also
exceeds it are skipped); frames are zero-padded to six digits in the label. -/
theorem get_segments_files_format (lengths : String → ℤ) (featDir : String)
    (segs : List Seg) (render : ℚ → String) :
    output_list_lines render segs
      = segs.map (fun s => s.1 ++ " " ++ render s.2.1 ++ " " ++ render s.2.2)
  ∧ scpLines lengths featDir segs
      = (scpEntries lengths segs).map (fun e => scpLine featDir e.1 e.2.1 e.2.2)
  ∧ (∀ u : String, ∀ a b : ℤ, scpLine featDir u a b
      = (u ++ "_" ++ fmt06d a ++ "-" ++ fmt06d b ++ ".fbank") ++ "="
        ++ pathJoin featDir (u ++ ".fbank") ++ "[" ++ toString a ++ "," ++ toString b ++ "]")
  ∧ fmt06d 0 = "000000" ∧ fmt06d 100 = "000100" :=
  ⟨output_list_lines_eq_map render segs, scpLines_eq_map lengths featDir segs,
    fun _ _ _ => rfl, by decide, by decide⟩

/-- A successful `if not isfile: symlink` block leaves a regular file at the
link path whenever the link target is a regular file. -/
theorem linkStep_isfile_self (link : String) (st st' : FS × List String)
    (h : linkStep true link st = some st') : st'.1.isfile link = true := by
  rw [linkStep] at h
  split_ifs at h with h1 h2
  · have he := Option.some.inj h
    subst he
    exact h1
  · have he := Option.some.inj h
    subst he
    simp

/-- A successful `if not isfile: symlink` block (with existing target)
preserves regular files at any path. -/
theorem linkStep_preserves (link p : String) (st st' : FS × List String)
    (hp : st.1.isfile p = true) (h : linkStep true link st = some st') :
    st'.1.isfile p = true := by
  rw [linkStep] at h
  split_ifs at h with h1 h2
  · have he := Option.some.inj h
    subst he
    exact hp
  · have he := Option.some.inj h
    subst he
    by_cases hb : (p == link) = true <;> simp [hb, hp]

/-- When the link path is already a regular file, the block does nothing. -/
theorem linkStep_noop (t : Bool) (link : String) (st : FS × List String)
    (h : st.1.isfile link = true) : linkStep t link st = some st := by
  rw [linkStep, if_pos h]

/-- Claim C10: `link_xitsonga_mfcc.main` is idempotent provided the linked-to
feature files exist: a second run immediately after a successful first run
creates no symlinks and leaves the file system unchanged. -/
theorem link_xitsonga_idempotent (fs fs1 : FS) (created : List String)
    (hrun : linkMain true true fs = some (fs1, created)) :
    linkMain true true fs1 = some (fs1, []) := by
  obtain ⟨stA, hA, hB⟩ := Option.bind_eq_some.mp hrun
  have htrain : fs1.isfile train_link_fn = true := by
    have h1 := linkStep_isfile_self train_link_fn (fs, []) stA hA
    exact linkStep_preserves test_link_fn train_link_fn stA (fs1, created) h1 hB
  have htest : fs1.isfile test_link_fn = true :=
    linkStep_isfile_self test_link_fn stA (fs1, created) hB
  rw [linkMain, linkStep_noop true train_link_fn (fs1, []) htrain, Option.some_bind,
    linkStep_noop true test_link_fn (fs1, []) htest]

/-- Witness for claim C10: a first run on the empty file system creates both
links, and the second run is a no-op. -/
theorem link_xitsonga_idempotent_witness :
    linkMain true true fs0 = some (fs1c, [train_link_fn, test_link_fn])
  ∧ linkMain true true fs1c = some (fs1c, []) :=
  ⟨rfl, link_xitsonga_idempotent fs0 fs1c [train_link_fn, test_link_fn] rfl⟩

end RecipeFeats
